import Mathlib

/-!
Verification of the changelog-entry validation logic of `noxfile.py`
(`is_changelog_filename_valid`, `is_changelog_entry_valid`, and the
directory scan of `towncrier_check`).

The Python functions are embedded shallowly:
* fallible code (a statement that can raise an uncaught `IndexError`)
  is modelled with `Option`: `none` means the call raises instead of
  returning a `(valid, reason)` pair;
* machine strings are Lean `String`s; character predicates
  (`str.isalpha`, `str.isupper`, `str.isspace`, the digits accepted by
  `int(...)`) are modelled on their ASCII fragment, which is all the
  validated contents exercise;
* the `set[str]` of allowed change types is modelled as a `List String`
  (only membership and rendering are used); Python renders a set in an
  unspecified hash order, the model renders it in list order — no
  property below depends on the rendering order;
* filesystem I/O of the scan is isolated at the boundary: a directory
  entry carries its name, its byte size and the result of UTF-8
  decoding its bytes (`none` when decoding fails).
-/

set_option autoImplicit false

/-- ASCII fragment of Python `str.isspace` (the whitespace stripped by
`str.strip()` and by `int(...)`). -/
def pyIsSpace (c : Char) : Bool :=
  c = ' ' || c = '\t' || c = '\n' || c = '\r' || c = '\x0b' || c = '\x0c'

/-- `l` with leading and trailing whitespace removed: Python `str.strip()`
on the character list. -/
def pyStripList (l : List Char) : List Char :=
  ((l.dropWhile pyIsSpace).reverse.dropWhile pyIsSpace).reverse

/-- Python `str.strip()`. -/
def pyStrip (s : String) : String :=
  ⟨pyStripList s.data⟩

/-- Digit run accepted by Python `int(...)` after the optional sign:
digits with single underscores allowed strictly between digits.
(ASCII digits; the Unicode decimal-digit table is out of scope.) -/
def pyDigitTail : List Char → Bool
  | [] => true
  | c :: rest =>
    if c = '_' then
      (match rest with
       | c2 :: _ => c2.isDigit
       | [] => false) && pyDigitTail rest
    else
      c.isDigit && pyDigitTail rest

/-- Nonempty digit run (with inner underscores) for `int(...)`. -/
def pyDigitRun : List Char → Bool
  | [] => false
  | c :: rest => c.isDigit && pyDigitTail rest

/-- Whether Python `int(s)` succeeds: optional surrounding whitespace,
optional `+`/`-` sign, then a nonempty digit run. -/
def pyIntParses (s : String) : Bool :=
  let t := pyStripList s.data
  let t2 := match t with
            | '+' :: rest => rest
            | '-' :: rest => rest
            | other => other
  pyDigitRun t2

/-- Reason returned when the filename does not split into three parts
(`rsplit` yields too few values to unpack). -/
def patternMsg : String :=
  "Doesn\x27t follow the \x22<description>.<change_type>.md\x22 pattern."

/-- Reason for an extension different from `md`. -/
def extMsg : String :=
  "Doesn\x27t end with md extension."

/-- Rendering of the allowed-change-types set inside the change-type
reason (Python renders `set[str]`; the model renders in list order). -/
def showSet (T : List String) : String :=
  "\x7b" ++ String.intercalate ", " (T.map (fun t => "\x27" ++ t ++ "\x27")) ++ "\x7d"

/-- Reason for a change type outside the allow-list. -/
def ctMsg (change_type : String) (T : List String) : String :=
  "Change type \x27" ++ change_type ++ "\x27 doesn\x27t match allowed types: "
    ++ showSet T ++ "."

/-- Reason for a description that is neither an integer nor `+`-prefixed. -/
def descMsg : String :=
  "Doesn\x27t start with a number nor a plus sign."

/-- Reason for a first character that is not a capital letter. -/
def capMsg : String :=
  "The first character is not a capital letter."

/-- Reason for a last character that is not a full stop. -/
def stopMsg : String :=
  "The last character is not a full-stop character."

/-- Python `' / '.join(...)`. -/
def joinSep : List String → String
  | [] => ""
  | [x] => x
  | x :: y :: rest => x ++ " / " ++ joinSep (y :: rest)

/-- Split a character list at its first `.`: `some (before, after)`,
`none` when there is no dot. Applied to a reversed list this finds the
last dot, which is how `str.rsplit('.', maxsplit=2)` scans. -/
def breakDot : List Char → Option (List Char × List Char)
  | [] => none
  | c :: rest =>
    if c = '.' then some ([], rest)
    else (breakDot rest).map (fun p => (c :: p.1, p.2))

/-- Python `filename.rsplit('.', maxsplit=2)` unpacked into exactly three
values: `some (description, change_type, extension)` when the name has at
least two dots, `none` otherwise (the `ValueError` branch of the code). -/
def rsplit2 (s : String) : Option (String × String × String) :=
  match breakDot s.data.reverse with
  | none => none
  | some (extR, rest) =>
    match breakDot rest with
    | none => none
    | some (ctR, descR) =>
      some (⟨descR.reverse⟩, ⟨ctR.reverse⟩, ⟨extR.reverse⟩)

/-- The description clause of `is_changelog_filename_valid`:
`int(description)` is attempted, its `ValueError` is caught, and then
`description[0]` is compared with `'+'`. On an empty description that
subscript raises an uncaught `IndexError`, modelled as `none`; otherwise
`some reasons` with the (possibly empty) accumulated reason list. -/
def descCheck (description : String) : Option (List String) :=
  if pyIntParses description then some []
  else
    match description.data with
    | [] => none
    | c :: _ => if c = '+' then some [] else some [descMsg]

/-- Reasons accumulated by `is_changelog_filename_valid` after a
successful three-way split, in check order (extension, change type,
description); `none` when the description clause raises. -/
def filenameErrorReasons (description change_type extension : String)
    (allowed_change_types : List String) : Option (List String) :=
  let r1 := if extension = "md" then [] else [extMsg]
  let r2 := if change_type ∈ allowed_change_types then []
            else [ctMsg change_type allowed_change_types]
  (descCheck description).map (fun r3 => r1 ++ r2 ++ r3)

/-- `is_changelog_filename_valid(filename, allowed_change_types)`:
`some (valid, reason)` for a normal return, `none` when the call raises
(`IndexError` on an empty description). -/
def is_changelog_filename_valid (filename : String)
    (allowed_change_types : List String) : Option (Bool × String) :=
  match rsplit2 filename with
  | none => some (false, patternMsg)
  | some (description, change_type, extension) =>
    (filenameErrorReasons description change_type extension allowed_change_types).map
      (fun rs => (rs.isEmpty, joinSep rs))

/-- `is_changelog_entry_valid(file_content)`: `some (valid, reason)` for a
normal return, `none` when the call raises — `file_content[0]` on empty
content, or `file_content.strip()[-1]` on whitespace-only content. -/
def is_changelog_entry_valid (file_content : String) : Option (Bool × String) :=
  match file_content.data with
  | [] => none
  | c0 :: _ =>
    let r1 := if !c0.isAlpha || !c0.isUpper then [capMsg] else []
    match (pyStrip file_content).data.getLast? with
    | none => none
    | some clast =>
      let rs := r1 ++ (if clast = '.' then [] else [stopMsg])
      some (rs.isEmpty, joinSep rs)

/-- One entry of the `changelog.d` directory as the scan sees it: its
name, its `lstat().st_size` in bytes, and the result of decoding its
bytes as UTF-8 (`none` when `read_text(encoding='utf-8')` raises
`UnicodeDecodeError`). -/
structure DirEntry where
  name : String
  size : Nat
  utf8 : Option String
  deriving DecidableEq, Repr

/-- Per-file verdict of the scan loop body. -/
inductive FileOutcome
  | skipped
  | ok
  | badName
  | oversize
  | badEncoding
  | badContent
  deriving DecidableEq, Repr

/-- Whether an outcome sets the `is_error` flag. -/
def FileOutcome.fails : FileOutcome → Bool
  | .skipped => false
  | .ok => false
  | _ => true

/-- The body of the `towncrier_check` loop for one directory entry:
skip the `.gitkeep` placeholder, then filename check, size gate
(strictly more than `16 * 1024` bytes), UTF-8 gate, content check,
each failing gate logging and continuing to the next file. `none`
models an exception escaping the loop body (a validator raising). -/
def checkFile (allowed_change_types : List String) (e : DirEntry) :
    Option FileOutcome :=
  if e.name ∈ [".gitkeep"] then some .skipped
  else
    match is_changelog_filename_valid e.name allowed_change_types with
    | none => none
    | some (is_valid, _) =>
      if !is_valid then some .badName
      else if 16 * 1024 < e.size then some .oversize
      else
        match e.utf8 with
        | none => some .badEncoding
        | some file_content =>
          match is_changelog_entry_valid file_content with
          | none => none
          | some (is_valid2, _) =>
            if !is_valid2 then some .badContent
            else some .ok

/-- The scan of `towncrier_check` over the directory entries, in order:
`some true` when the run succeeds (no `session.error`), `some false`
when at least one file failed, `none` when a validator raised (the
exception aborts the loop before later entries are processed). -/
def towncrier_check (allowed_change_types : List String) :
    List DirEntry → Option Bool
  | [] => some true
  | e :: rest =>
    match checkFile allowed_change_types e with
    | none => none
    | some o =>
      match towncrier_check allowed_change_types rest with
      | none => none
      | some b => some (!o.fails && b)

/-! ### Helper lemmas -/

theorem string_eq_empty_iff (s : String) : s = "" ↔ s.data = [] := by
  cases s with
  | mk l =>
    constructor
    · intro h
      rw [show (String.mk l).data = l from rfl, show l = ("" : String).data from by rw [← h]]
    · intro h
      rw [show (String.mk l).data = l from rfl] at h
      rw [h]

theorem breakDot_eq_none {l : List Char} : breakDot l = none ↔ '.' ∉ l := by
  induction l with
  | nil => simp [breakDot]
  | cons c rest ih =>
    by_cases hc : c = '.'
    · subst hc
      simp [breakDot]
    · simp [breakDot, hc, Option.map_eq_none', ih, Ne.symm hc]

theorem breakDot_eq_some : ∀ {l a b : List Char}, breakDot l = some (a, b) →
    l = a ++ '.' :: b ∧ '.' ∉ a := by
  intro l
  induction l with
  | nil => intro a b h; simp [breakDot] at h
  | cons c rest ih =>
    intro a b h
    by_cases hc : c = '.'
    · subst hc
      unfold breakDot at h
      rw [if_pos rfl] at h
      injection h with h
      cases h
      exact ⟨rfl, by simp⟩
    · unfold breakDot at h
      rw [if_neg hc] at h
      cases hab : breakDot rest with
      | none => rw [hab] at h; simp at h
      | some p =>
        obtain ⟨a', b'⟩ := p
        rw [hab] at h
        simp only [Option.map_some', Option.some.injEq, Prod.mk.injEq] at h
        obtain ⟨h1, h2⟩ := h
        obtain ⟨hl, hna⟩ := ih hab
        subst h1
        subst h2
        refine ⟨by rw [hl]; simp, ?_⟩
        intro m
        rcases List.mem_cons.mp m with hm | hm
        · exact hc hm.symm
        · exact hna hm

theorem breakDot_append_nodot {xs : List Char} (ys : List Char) (h : '.' ∉ xs) :
    breakDot (xs ++ '.' :: ys) = some (xs, ys) := by
  induction xs with
  | nil => simp [breakDot]
  | cons c rest ih =>
    have hc : ¬ c = '.' := fun e => h (by rw [e]; exact List.mem_cons_self _ _)
    have hrest : '.' ∉ rest := fun m => h (List.mem_cons_of_mem _ m)
    simp [breakDot, hc, ih hrest]

theorem rsplit2_concat (d t : String) (ht : '.' ∉ t.data) :
    rsplit2 (d ++ "." ++ t ++ ".md") = some (d, t, "md") := by
  have hdata : (d ++ "." ++ t ++ ".md").data
      = d.data ++ '.' :: (t.data ++ '.' :: ['m', 'd']) := by
    simp [String.data_append]
  have hrev : (d.data ++ '.' :: (t.data ++ '.' :: ['m', 'd'])).reverse
      = ['d', 'm'] ++ '.' :: (t.data.reverse ++ '.' :: d.data.reverse) := by
    simp
  have h1 : breakDot (['d', 'm'] ++ '.' :: (t.data.reverse ++ '.' :: d.data.reverse))
      = some (['d', 'm'], t.data.reverse ++ '.' :: d.data.reverse) :=
    breakDot_append_nodot _ (by decide)
  have h2 : breakDot (t.data.reverse ++ '.' :: d.data.reverse)
      = some (t.data.reverse, d.data.reverse) :=
    breakDot_append_nodot _ (by simpa using ht)
  simp only [rsplit2, hdata, hrev, h1, h2, List.reverse_reverse]
  rfl

theorem rsplit2_eq_none_of_count {s : String} (h : s.data.count '.' < 2) :
    rsplit2 s = none := by
  unfold rsplit2
  cases h1 : breakDot s.data.reverse with
  | none => rfl
  | some p =>
    obtain ⟨a, b⟩ := p
    obtain ⟨heq, _⟩ := breakDot_eq_some h1
    cases h2 : breakDot b with
    | none => simp [h2]
    | some q =>
      obtain ⟨a2, b2⟩ := q
      obtain ⟨heq2, _⟩ := breakDot_eq_some h2
      exfalso
      have hge : 2 ≤ s.data.count '.' := by
        have hcount : s.data.count '.' = s.data.reverse.count '.' :=
          (List.count_reverse '.' s.data).symm
        rw [hcount, heq, heq2]
        simp [List.count_append, List.count_cons]
        omega
      omega

theorem joinSep_ne_empty : ∀ {rs : List String}, rs ≠ [] →
    (∀ x ∈ rs, x ≠ "") → joinSep rs ≠ "" := by
  intro rs
  induction rs with
  | nil => intro h _; exact absurd rfl h
  | cons x rest ih =>
    intro _ hx
    cases rest with
    | nil => simpa [joinSep] using hx x (by simp)
    | cons y rest2 =>
      intro hcontra
      have hdata : (x ++ " / " ++ joinSep (y :: rest2)).data = [] := by
        rw [show x ++ " / " ++ joinSep (y :: rest2) = joinSep (x :: y :: rest2) from rfl,
          hcontra]
      simp [String.data_append] at hdata

theorem ctMsg_ne_empty (ct : String) (T : List String) : ctMsg ct T ≠ "" := by
  intro h
  have hdata := congrArg String.data h
  simp [ctMsg, String.data_append] at hdata

theorem ctMsg_ne_descMsg (ct : String) (T : List String) : ctMsg ct T ≠ descMsg := by
  intro h
  have hdata := congrArg String.data h
  simp [ctMsg, descMsg, String.data_append] at hdata

theorem descCheck_eq_of_ne_nil {d : String} (hd : d.data ≠ []) :
    descCheck d = some (if pyIntParses d = true then []
      else if d.data.head? = some '+' then [] else [descMsg]) := by
  by_cases hp : pyIntParses d = true
  · simp [descCheck, hp]
  · cases hdd : d.data with
    | nil => exact absurd hdd hd
    | cons c cs =>
      by_cases hcp : c = '+'
      · simp [descCheck, hp, hdd, hcp]
      · simp [descCheck, hp, hdd, hcp]

theorem descCheck_mem_ne_empty {d : String} {r3 : List String}
    (h : descCheck d = some r3) : ∀ x ∈ r3, x ≠ "" := by
  unfold descCheck at h
  split at h
  · injection h with h
    subst h
    simp
  · split at h
    · exact absurd h (by simp)
    · split at h
      · injection h with h
        subst h
        simp
      · injection h with h
        subst h
        intro x hx
        rw [List.mem_singleton] at hx
        subst hx
        decide

theorem joinSep_empty_iff {rs : List String} (hne : ∀ x ∈ rs, x ≠ "") :
    joinSep rs = "" ↔ rs.isEmpty = true := by
  cases rs with
  | nil => simp [joinSep]
  | cons x rest =>
    constructor
    · intro h
      exact absurd h (joinSep_ne_empty (by simp) hne)
    · intro h
      simp at h

theorem filename_valid_eq_none (fn : String) (T : List String)
    (hs : rsplit2 fn = none) :
    is_changelog_filename_valid fn T = some (false, patternMsg) := by
  unfold is_changelog_filename_valid
  rw [hs]

theorem filename_valid_eq_some (fn : String) (T : List String)
    (d ct ext : String) (hs : rsplit2 fn = some (d, ct, ext)) :
    is_changelog_filename_valid fn T
      = (filenameErrorReasons d ct ext T).map
          (fun rs => (rs.isEmpty, joinSep rs)) := by
  unfold is_changelog_filename_valid
  rw [hs]

theorem entry_valid_eq_none (content : String) (c0 : Char) (rest0 : List Char)
    (hdd : content.data = c0 :: rest0)
    (hl : (pyStrip content).data.getLast? = none) :
    is_changelog_entry_valid content = none := by
  unfold is_changelog_entry_valid
  rw [hdd, hl]

theorem entry_valid_eq_some (content : String) (c0 : Char) (rest0 : List Char)
    (clast : Char) (hdd : content.data = c0 :: rest0)
    (hl : (pyStrip content).data.getLast? = some clast) :
    is_changelog_entry_valid content
      = some (((if !c0.isAlpha || !c0.isUpper then [capMsg] else [])
          ++ (if clast = '.' then [] else [stopMsg])).isEmpty,
        joinSep ((if !c0.isAlpha || !c0.isUpper then [capMsg] else [])
          ++ (if clast = '.' then [] else [stopMsg]))) := by
  unfold is_changelog_entry_valid
  rw [hdd, hl]

/-! ### Claim theorems -/

/-- Claim C1: the spec requires the content validator to guard its index-0
and last-character accesses so that every input, the empty string included,
gets a `(valid, reason)` result. The code does not guard: on empty content
`file_content[0]` raises an uncaught `IndexError` (modelled as `none`), so
the call returns no result at all. This theorem evaluates the embedded code
at the failing input. -/
theorem c1_entry_validator_crashes_on_empty :
    is_changelog_entry_valid "" = none := by decide

/-- Claim C2 counterexample: the description `"-1"` is a negative integer,
yet `int("-1")` succeeds, so the validator accepts `-1.fixed.md` with no
reason at all — refuting the claim that only non-negative integers or
`+`-prefixed descriptions are accepted and that `"-1"` accumulates the
reason. -/
theorem c2_counterexample :
    is_changelog_filename_valid "-1.fixed.md" ["fixed"] = some (true, "") := by
  decide

/-- Claim C2 (amended): for every filename that splits into
`(description, change_type, extension)` with a nonempty description, the
validator returns normally and the description reason is accumulated
exactly when the description neither parses as a Python integer (sign
included, so negative integers are accepted) nor starts with `'+'`. -/
theorem c2_description_acceptance (T : List String) (fn d ct ext : String)
    (hsplit : rsplit2 fn = some (d, ct, ext)) (hd : d ≠ "") :
    ∃ rs, filenameErrorReasons d ct ext T = some rs ∧
      is_changelog_filename_valid fn T = some (rs.isEmpty, joinSep rs) ∧
      (descMsg ∈ rs ↔ (pyIntParses d = false ∧ d.data.head? ≠ some '+')) := by
  have hdl : d.data ≠ [] := fun h => hd ((string_eq_empty_iff d).mpr h)
  have hdc := descCheck_eq_of_ne_nil hdl
  refine ⟨(if ext = "md" then [] else [extMsg])
      ++ (if ct ∈ T then [] else [ctMsg ct T])
      ++ (if pyIntParses d = true then []
          else if d.data.head? = some '+' then [] else [descMsg]), ?_, ?_, ?_⟩
  · simp [filenameErrorReasons, hdc]
  · unfold is_changelog_filename_valid
    rw [hsplit]
    simp [filenameErrorReasons, hdc]
  · by_cases h1 : ext = "md" <;> by_cases h2 : ct ∈ T <;>
      by_cases hp : pyIntParses d = true <;>
      by_cases hcp : d.data.head? = some '+' <;>
      simp [h1, h2, hp, hcp, Ne.symm (ctMsg_ne_descMsg ct T),
        (by decide : ¬(descMsg = extMsg))]

/-- Claim C2 witness: the amended theorem applied to `abc.fixed.md`, whose
description `abc` is neither an integer nor `+`-prefixed, so the
description reason is accumulated. -/
theorem c2_witness :
    ∃ rs, filenameErrorReasons "abc" "fixed" "md" ["fixed"] = some rs ∧
      is_changelog_filename_valid "abc.fixed.md" ["fixed"]
        = some (rs.isEmpty, joinSep rs) ∧
      (descMsg ∈ rs ↔ (pyIntParses "abc" = false ∧
        "abc".data.head? ≠ some '+')) :=
  c2_description_acceptance ["fixed"] "abc.fixed.md" "abc" "fixed" "md"
    (by decide) (by decide)

/-- Claim C3 counterexample: with allow-list `\x7b"x.y"\x7d` and change type
`x.y` drawn from it, the filename `1.x.y.md` splits at its last two dots
into `("1.x", "y", "md")`, so the validator does not return
`(true, "")` — refuting the claim for allow-lists whose change types
contain a dot. -/
theorem c3_counterexample :
    is_changelog_filename_valid "1.x.y.md" ["x.y"] ≠ some (true, "") := by
  decide

/-- Claim C3 (amended): for every allow-list `T`, every change type
`t ∈ T` that contains no `'.'`, and every description `d` that parses as a
Python integer or begins with `'+'`, the validator accepts
`d ++ "." ++ t ++ ".md"` with an empty reason string. -/
theorem c3_wellformed_filename_valid (T : List String) (t d : String)
    (htT : t ∈ T) (hnd : '.' ∉ t.data)
    (hdesc : pyIntParses d = true ∨ d.data.head? = some '+') :
    is_changelog_filename_valid (d ++ "." ++ t ++ ".md") T = some (true, "") := by
  have hdc : descCheck d = some [] := by
    by_cases hp : pyIntParses d = true
    · simp [descCheck, hp]
    · rcases hdesc with hp' | hplus
      · exact absurd hp' hp
      · cases hdd : d.data with
        | nil => rw [hdd] at hplus; simp at hplus
        | cons c cs =>
          rw [hdd] at hplus
          simp at hplus
          simp [descCheck, hp, hdd, hplus]
  unfold is_changelog_filename_valid
  rw [rsplit2_concat d t hnd]
  simp [filenameErrorReasons, hdc, htT, joinSep]

/-- Claim C3 witness: the amended theorem applied to `+note.fixed.md` with
allow-list `\x7b"fixed"\x7d`. -/
theorem c3_witness :
    is_changelog_filename_valid ("+note" ++ "." ++ "fixed" ++ ".md") ["fixed"]
      = some (true, "") :=
  c3_wellformed_filename_valid ["fixed"] "fixed" "+note" (by decide)
    (by decide) (by decide)

/-- Claim C4: a filename with fewer than two dots cannot be unpacked into
three segments, so the validator fails immediately with the single pattern
reason; the result does not depend on the allow-list, so no change-type
(or any other) check runs. -/
theorem c4_pattern_short_circuits (T : List String) (s : String)
    (h : s.data.count '.' < 2) :
    is_changelog_filename_valid s T = some (false, patternMsg) := by
  unfold is_changelog_filename_valid
  rw [rsplit2_eq_none_of_count h]

/-- Claim C4 witness: `entry.zzz` has one dot; with an allow-list not
containing `zzz`, only the pattern reason is returned. -/
theorem c4_witness :
    is_changelog_filename_valid "entry.zzz" ["fixed"] = some (false, patternMsg) :=
  c4_pattern_short_circuits ["fixed"] "entry.zzz" (by decide)

/-- Claim C5 counterexample: `.fixed.md` does split into three segments
(`("", "fixed", "md")`), yet the validator raises (returns no result) on
its empty description instead of reporting the applicable description
reason — refuting the claim for that filename. -/
theorem c5_counterexample :
    rsplit2 ".fixed.md" = some ("", "fixed", "md") ∧
      is_changelog_filename_valid ".fixed.md" ["x"] = none := by
  decide

/-- Claim C5 (amended): for every filename splitting into three segments
with a nonempty description, the validator reports together all applicable
reasons — extension, change type, description — in check order; and the
content validator reports the capitalization and full-stop reasons
independently, both appearing for `"hello world"`. -/
theorem c5_all_reasons_reported (T : List String) (fn d ct ext : String)
    (hsplit : rsplit2 fn = some (d, ct, ext)) (hd : d ≠ "") :
    (∃ rs, rs = (if ext = "md" then [] else [extMsg])
          ++ (if ct ∈ T then [] else [ctMsg ct T])
          ++ (if pyIntParses d = true then []
              else if d.data.head? = some '+' then [] else [descMsg]) ∧
        is_changelog_filename_valid fn T = some (rs.isEmpty, joinSep rs)) ∧
      is_changelog_entry_valid "hello world"
        = some (false, capMsg ++ " / " ++ stopMsg) := by
  refine ⟨⟨_, rfl, ?_⟩, by decide⟩
  have hdl : d.data ≠ [] := fun h => hd ((string_eq_empty_iff d).mpr h)
  unfold is_changelog_filename_valid
  rw [hsplit]
  simp [filenameErrorReasons, descCheck_eq_of_ne_nil hdl]

/-- Claim C5 witness: `x.y.txt` with allow-list `\x7b"fixed"\x7d` triggers
all three filename reasons at once. -/
theorem c5_witness :
    (∃ rs, rs = (if "txt" = "md" then [] else [extMsg])
          ++ (if "y" ∈ ["fixed"] then [] else [ctMsg "y" ["fixed"]])
          ++ (if pyIntParses "x" = true then []
              else if "x".data.head? = some '+' then [] else [descMsg]) ∧
        is_changelog_filename_valid "x.y.txt" ["fixed"]
          = some (rs.isEmpty, joinSep rs)) ∧
      is_changelog_entry_valid "hello world"
        = some (false, capMsg ++ " / " ++ stopMsg) :=
  c5_all_reasons_reported ["fixed"] "x.y.txt" "x" "y" "txt" (by decide) (by decide)

/-- Claim C6: on every input on which they return, both validators return
an empty reason string exactly when the validity flag is true. -/
theorem c6_valid_iff_empty_reason :
    (∀ (fn : String) (T : List String) (b : Bool) (r : String),
        is_changelog_filename_valid fn T = some (b, r) → (r = "" ↔ b = true)) ∧
    (∀ (content : String) (b : Bool) (r : String),
        is_changelog_entry_valid content = some (b, r) → (r = "" ↔ b = true)) := by
  constructor
  · intro fn T b r h
    cases hs : rsplit2 fn with
    | none =>
      rw [filename_valid_eq_none fn T hs] at h
      injection h with h
      cases h
      exact iff_of_false (by decide) (by decide)
    | some trip =>
      obtain ⟨d, ct, ext⟩ := trip
      rw [filename_valid_eq_some fn T d ct ext hs] at h
      unfold filenameErrorReasons at h
      cases hdc : descCheck d with
      | none => rw [hdc] at h; simp at h
      | some r3 =>
        rw [hdc] at h
        simp only [Option.map_some', Option.some.injEq] at h
        cases h
        apply joinSep_empty_iff
        intro x hx
        simp only [List.mem_append] at hx
        rcases hx with (hxa | hxb) | hx3
        · by_cases he : ext = "md"
          · rw [if_pos he] at hxa; simp at hxa
          · rw [if_neg he] at hxa
            rw [List.mem_singleton] at hxa
            subst hxa
            decide
        · by_cases hct : ct ∈ T
          · rw [if_pos hct] at hxb; simp at hxb
          · rw [if_neg hct] at hxb
            rw [List.mem_singleton] at hxb
            subst hxb
            exact ctMsg_ne_empty ct T
        · exact descCheck_mem_ne_empty hdc x hx3
  · intro content b r h
    cases hdd : content.data with
    | nil =>
      rw [show is_changelog_entry_valid content = none from by
        unfold is_changelog_entry_valid; rw [hdd]] at h
      simp at h
    | cons c0 rest0 =>
      cases hl : (pyStrip content).data.getLast? with
      | none =>
        rw [entry_valid_eq_none content c0 rest0 hdd hl] at h
        simp at h
      | some clast =>
        rw [entry_valid_eq_some content c0 rest0 clast hdd hl] at h
        injection h with h
        cases h
        apply joinSep_empty_iff
        intro x hx
        simp only [List.mem_append] at hx
        rcases hx with hxa | hxb
        · by_cases hcap : (!c0.isAlpha || !c0.isUpper) = true
          · rw [if_pos hcap] at hxa
            rw [List.mem_singleton] at hxa
            subst hxa
            decide
          · rw [if_neg hcap] at hxa; simp at hxa
        · by_cases hstop : clast = '.'
          · rw [if_pos hstop] at hxb; simp at hxb
          · rw [if_neg hstop] at hxb
            rw [List.mem_singleton] at hxb
            subst hxb
            decide

/-- Claim C6 witness: the invariant applied to two returning runs — a
filename with an out-of-set change type and the well-formed content
`"Ok."`. -/
theorem c6_witness :
    ((patternMsg = "" ↔ (false : Bool) = true) ∧ ("" = "" ↔ (true : Bool) = true)) :=
  ⟨c6_valid_iff_empty_reason.1 "nodots" ["fixed"] false patternMsg (by decide),
   c6_valid_iff_empty_reason.2 "Ok." true "" (by decide)⟩

/-- Claim C7: in the scan loop, a file past the `.gitkeep` skip and the
filename check whose size exceeds `16 * 1024` bytes gets the oversize
verdict for every possible content (its bytes are never decoded nor
content-checked, since the entry is arbitrary in its `utf8` field); and a
file of size exactly `16 * 1024` is never given the oversize verdict. -/
theorem c7_size_gate :
    (∀ (T : List String) (e : DirEntry) (r : String),
        e.name ≠ ".gitkeep" →
        is_changelog_filename_valid e.name T = some (true, r) →
        16 * 1024 < e.size →
        checkFile T e = some .oversize) ∧
    (∀ (T : List String) (e : DirEntry), e.size = 16 * 1024 →
        checkFile T e ≠ some .oversize) := by
  constructor
  · intro T e r hname hv hsize
    unfold checkFile
    rw [if_neg (by simpa using hname), hv]
    simp [hsize]
  · intro T e hsize
    unfold checkFile
    by_cases hname : e.name ∈ [".gitkeep"]
    · have hname' : e.name = ".gitkeep" := by simpa using hname
      simp [hname']
    · rw [if_neg hname]
      cases hv : is_changelog_filename_valid e.name T with
      | none => simp
      | some p =>
        obtain ⟨b, rr⟩ := p
        cases b
        · simp
        · have hlt : ¬ (16 * 1024 < e.size) := by omega
          simp only [Bool.not_true, Bool.false_eq_true, if_false, if_neg hlt]
          cases e.utf8 with
          | none => simp
          | some content =>
            cases hce : is_changelog_entry_valid content with
            | none => simp [hce]
            | some q =>
              obtain ⟨b2, r2⟩ := q
              cases b2 <;> simp [hce]

/-- Claim C7 witness: an oversize file (20000 bytes) with decodable
content gets the oversize verdict; its content is irrelevant. -/
theorem c7_witness :
    checkFile ["fixed"] ⟨"1.fixed.md", 20000, some "hello"⟩
      = some .oversize :=
  c7_size_gate.1 ["fixed"] ⟨"1.fixed.md", 20000, some "hello"⟩ ""
    (by decide) (by decide) (by decide)

theorem towncrier_check_total (T : List String) : ∀ (l : List DirEntry),
    (∀ e ∈ l, checkFile T e ≠ none) →
    ∃ b, towncrier_check T l = some b := by
  intro l
  induction l with
  | nil => exact fun _ => ⟨true, rfl⟩
  | cons e rest ih =>
    intro h
    obtain ⟨b, hb⟩ := ih (fun e' m => h e' (List.mem_cons_of_mem _ m))
    cases hce : checkFile T e with
    | none => exact absurd hce (h e (List.mem_cons_self _ _))
    | some o =>
      refine ⟨!o.fails && b, ?_⟩
      unfold towncrier_check
      rw [hce, hb]

/-- Claim C8: when no validator raises, the scan processes every directory
entry and succeeds exactly when no file fails any gate — a failing file
marks the run failed without stopping the scan; and the `.gitkeep`
placeholder is always skipped without any validation, whatever its size
or content. -/
theorem c8_scan_aggregates :
    (∀ (T : List String) (entries : List DirEntry),
        (∀ e ∈ entries, checkFile T e ≠ none) →
        (towncrier_check T entries = some true ↔
          ∀ e ∈ entries, ∃ o, checkFile T e = some o ∧ o.fails = false)) ∧
    (∀ (T : List String) (n : Nat) (u : Option String),
        checkFile T ⟨".gitkeep", n, u⟩ = some .skipped) := by
  constructor
  · intro T entries
    induction entries with
    | nil =>
      intro _
      simp [towncrier_check]
    | cons e rest ih =>
      intro h
      have hrest := fun e' m => h e' (List.mem_cons_of_mem _ m)
      obtain ⟨b, hb⟩ := towncrier_check_total T rest hrest
      cases hce : checkFile T e with
      | none => exact absurd hce (h e (List.mem_cons_self _ _))
      | some o =>
        have hstep : towncrier_check T (e :: rest) = some (!o.fails && b) := by
          unfold towncrier_check
          rw [hce, hb]
        have ihiff := ih hrest
        rw [hb] at ihiff
        rw [hstep]
        constructor
        · intro hsome
          injection hsome with heq
          rw [Bool.and_eq_true, Bool.not_eq_true'] at heq
          intro e' hm
          rcases List.mem_cons.mp hm with rfl | hm'
          · exact ⟨o, hce, heq.1⟩
          · exact ihiff.mp (by rw [heq.2]) e' hm'
        · intro hall
          obtain ⟨o', ho', hof⟩ := hall e (List.mem_cons_self _ _)
          rw [hce] at ho'
          injection ho' with ho'
          subst ho'
          have hbt : some b = some true :=
            ihiff.mpr (fun e' m => hall e' (List.mem_cons_of_mem _ m))
          injection hbt with hbt
          rw [hof, hbt]
          rfl
  · intro T n u
    rfl

/-- Claim C8 witness: a directory with the `.gitkeep` placeholder, one
failing file (bad change type) and one valid file: no step raises, and
the run fails — applying the scan theorem at this list shows the outcome
reflects exactly the per-file verdicts, the failing file notwithstanding
the later valid one. -/
theorem c8_witness :
    towncrier_check ["fixed"]
      [⟨".gitkeep", 0, none⟩, ⟨"1.fixed.md", 10, some "Ok."⟩]
      = some true := by
  refine (c8_scan_aggregates.1 ["fixed"]
    [⟨".gitkeep", 0, none⟩, ⟨"1.fixed.md", 10, some "Ok."⟩] (by decide)).mpr ?_
  intro e hm
  rcases List.mem_cons.mp hm with rfl | hm2
  · exact ⟨.skipped, rfl, rfl⟩
  · rcases List.mem_cons.mp hm2 with rfl | hm3
    · exact ⟨.ok, by decide, rfl⟩
    · exact absurd hm3 (List.not_mem_nil _)

/-- Claim C9: a filename such as `.fixed.md` splits into three segments
with an empty description; `int("")` fails and the subsequent
`description[0]` raises `IndexError`, so the validator returns no
`(valid, reason)` result for any allow-list. -/
theorem c9_empty_description_raises (T : List String) :
    is_changelog_filename_valid ".fixed.md" T = none := by
  have hs : rsplit2 ".fixed.md" = some ("", "fixed", "md") := by decide
  rw [filename_valid_eq_some ".fixed.md" T "" "fixed" "md" hs]
  have hdc : descCheck "" = none := by decide
  simp [filenameErrorReasons, hdc]

/-- Claim C9 witness: the empty-description crash at the allow-list
`\x7b"fixed"\x7d`. -/
theorem c9_witness :
    is_changelog_filename_valid ".fixed.md" ["fixed"] = none :=
  c9_empty_description_raises ["fixed"]

/-- Claim C10: on the whitespace-only content `"   "`, the first-character
check accumulates its reason, but `strip()` yields the empty string and
the trailing full-stop subscript raises `IndexError`: the validator
returns no result. -/
theorem c10_whitespace_content_raises :
    is_changelog_entry_valid "   " = none ∧ pyStrip "   " = "" := by
  decide

example : pyIntParses "-1" = true := by decide
example : pyIntParses "+5" = true := by decide
example : pyIntParses "" = false := by decide
example : pyIntParses " 12 " = true := by decide
example : pyIntParses "1_0" = true := by decide
example : pyIntParses "1__0" = false := by decide
example : pyIntParses "1_" = false := by decide
example : rsplit2 "1.fixed.md" = some ("1", "fixed", "md") := by decide
example : rsplit2 ".fixed.md" = some ("", "fixed", "md") := by decide
example : rsplit2 "a.b" = none := by decide
example : rsplit2 "1.x.y.md" = some ("1.x", "y", "md") := by decide
example : is_changelog_filename_valid "-1.fixed.md" ["fixed"] = some (true, "") := by decide
example : is_changelog_filename_valid ".fixed.md" ["fixed"] = none := by decide
example : is_changelog_entry_valid "" = none := by decide
example : is_changelog_entry_valid "   " = none := by decide
example : is_changelog_entry_valid "Hello world." = some (true, "") := by decide
example : is_changelog_entry_valid "hello world" =
    some (false, capMsg ++ " / " ++ stopMsg) := by decide
